import Mathlib

/-!
Verification of the git-opr repository's synchronization and task-orchestration
core against its natural-language specification.

The definitions below are a shallow embedding of the Python sources:

* `src/server/src/db/gitDatabase.py` (class `AsyncGit` and module-level
  `get_tree`): path sandboxing, file/folder operations, commit/checkout flow;
* `src/server/src/services/task_manager.py`: task store and `enqueue_task`;
* `src/server/src/services/lifespan_functions.py`: cleanup sweep and the
  background-loop spawning in `lifespan`;
* `src/server/src/models/tasks.py`: `TaskModel` / `TaskStatus`;
* `src/server/src/exceptions/exceptions.py`: the error taxonomy.

Python's `os.path` functions (`normpath`, `join`, `abspath`, `dirname`,
`basename`) are embedded faithfully from CPython's `posixpath` module, since
the sandbox check `_ensure_within_repo` depends on their exact behaviour.
Strings are manipulated through their underlying character lists so that every
definition evaluates by kernel reduction.
-/

namespace GitOpr

/-! ### Character-list string utilities -/

/-- `listStarts pre l` is `True` iff `pre` is an initial segment of `l`
(Python `str.startswith` on the underlying characters). -/
def listStarts : List Char → List Char → Bool
  | [], _ => true
  | _ :: _, [] => false
  | a :: as, b :: bs => a = b && listStarts as bs

/-- Python `str.endswith` on character lists. -/
def listEnds (suf l : List Char) : Bool :=
  listStarts suf.reverse l.reverse

/-- Python `str.find(sub) != -1` on character lists: `sub` occurs somewhere
inside `l`. -/
def containsSub (pat : List Char) : List Char → Bool
  | [] => listStarts pat []
  | c :: t => listStarts pat (c :: t) || containsSub pat t

/-- Split a character list on a separator character, Python `str.split(sep)`
semantics: `""` splits to `[""]`, separators at the ends produce empty
segments. -/
def chSplit (sep : Char) : List Char → List (List Char)
  | [] => [[]]
  | c :: rest =>
    let r := chSplit sep rest
    if c = sep then [] :: r
    else
      match r with
      | [] => [[c]]
      | h :: t => (c :: h) :: t

/-- Join segments with `'/'`, Python `"/".join(...)`. -/
def joinSlash : List (List Char) → List Char
  | [] => []
  | [x] => x
  | x :: rest => x ++ '/' :: joinSlash rest

/-! ### CPython `posixpath` embedding -/

/-- The fold body of `posixpath.normpath`'s component loop: skip `''` and
`'.'`, append ordinary components, and let `'..'` pop the previous component
unless the path is relative and empty so far, or the previous component is
itself `'..'`. -/
def normComps (initialSlashes : Nat) (comps : List (List Char)) : List (List Char) :=
  comps.foldl
    (fun acc comp =>
      if comp = [] || comp = ['.'] then acc
      else if comp ≠ ['.', '.'] || (initialSlashes = 0 && acc.isEmpty)
              || (acc.isEmpty = false && acc.getLast? = some ['.', '.']) then
        acc ++ [comp]
      else if acc.isEmpty = false then acc.dropLast
      else acc)
    []

/-- `posixpath.normpath` on character lists: collapse `.`/`..`/repeated
slashes, preserving the POSIX special case of exactly two leading slashes. -/
def pyNormChars (p : List Char) : List Char :=
  if p = [] then ['.']
  else
    let s1 : Bool := listStarts ['/'] p
    let s2 : Bool := listStarts ['/', '/'] p && !listStarts ['/', '/', '/'] p
    let initialSlashes : Nat := if s2 then 2 else if s1 then 1 else 0
    let newComps := normComps initialSlashes (chSplit '/' p)
    let res := List.replicate initialSlashes '/' ++ joinSlash newComps
    if res = [] then ['.'] else res

/-- `os.path.normpath` on `String`. -/
def pyNormpath (p : String) : String :=
  String.mk (pyNormChars p.data)

/-- Two-argument `os.path.join`: an absolute second argument replaces the
first, otherwise the parts are joined with a single `'/'` unless the first
already ends with one (or is empty). -/
def pyJoin2 (a b : String) : String :=
  if listStarts ['/'] b.data then b
  else if a.data = [] || listEnds ['/'] a.data then String.mk (a.data ++ b.data)
  else String.mk (a.data ++ '/' :: b.data)

/-- `os.path.abspath`: join onto the working directory when relative, then
normalize. -/
def pyAbspath (cwd p : String) : String :=
  if listStarts ['/'] p.data then pyNormpath p else pyNormpath (pyJoin2 cwd p)

/-- Strip trailing `'/'` characters (`str.rstrip('/')`). -/
def rstripSlash (l : List Char) : List Char :=
  (l.reverse.dropWhile (fun c => c = '/')).reverse

/-- Index one past the last `'/'` in `l`, or `0` when there is none
(Python `p.rfind('/') + 1`). -/
def lastSlashCut (l : List Char) : Nat :=
  match l.reverse.findIdx? (fun c => c = '/') with
  | some i => l.length - i
  | none => 0

/-- `posixpath.dirname`. -/
def pyDirname (p : String) : String :=
  let l := p.data
  let head := l.take (lastSlashCut l)
  if head ≠ [] && head ≠ List.replicate head.length '/' then
    String.mk (rstripSlash head)
  else
    String.mk head

/-- `posixpath.basename`. -/
def pyBasename (p : String) : String :=
  String.mk (p.data.drop (lastSlashCut p.data))

/-- Python `str.removesuffix`. -/
def pyRemovesuffix (s suf : String) : String :=
  if suf.data ≠ [] && listEnds suf.data s.data then
    String.mk (s.data.take (s.data.length - suf.data.length))
  else s

end GitOpr

namespace GitOpr

example : pyNormpath "/clone/base/../base2/secret.txt" = "/clone/base2/secret.txt" := by decide
example : pyNormpath "/clone/base/../../etc/passwd" = "/etc/passwd" := by decide
example : pyNormpath "/a//b/./c/" = "/a/b/c" := by decide
example : pyNormpath "" = "." := by decide
example : pyJoin2 "/clone" "" = "/clone/" := by decide
example : pyJoin2 "/clone" "/abs" = "/abs" := by decide
example : pyDirname "../base2/secret.txt" = "../base2" := by decide
example : pyDirname "x.txt" = "" := by decide
example : pyDirname "/clone/base2/secret.txt" = "/clone/base2" := by decide
example : pyBasename "/clone/base" = "base" := by decide
example : pyRemovesuffix "/clone/" "/" = "/clone" := by decide
example : pyRemovesuffix "/clone" "/" = "/clone" := by decide

/-! ### Error taxonomy (`src/server/src/exceptions/exceptions.py`)

Each constructor is one exception class; `statusCode` is the HTTP status the
class sets.  `osError` stands for an untyped Python `OSError` (or subclass)
that no `AsyncGit` method catches, and `fuelOut` is an artifact of the fueled
embedding of the mutually recursive `.gitkeep` maintenance (unreachable for
the fuel used by the wrappers). -/

inductive AppErr
  | gitError
  | gitConnectionError
  | gitRebaseError
  | gitCommitError
  | fileNotFound
  | folderNotFound
  | invalidPathError
  | pathAccessDenied
  | taskNotFound
  | unauthorizedError
  | osError
  | fuelOut
  deriving DecidableEq, Repr

/-- HTTP status code carried by each exception class, from
`exceptions.py` (`osError`/`fuelOut` have no class; the generic handler in
`main.py` turns uncaught exceptions into 500). -/
def AppErr.statusCode : AppErr → Nat
  | .gitError => 500
  | .gitConnectionError => 500
  | .gitRebaseError => 500
  | .gitCommitError => 500
  | .fileNotFound => 404
  | .folderNotFound => 404
  | .invalidPathError => 400
  | .pathAccessDenied => 403
  | .taskNotFound => 404
  | .unauthorizedError => 401
  | .osError => 500
  | .fuelOut => 500

/-- The not-found family of path errors (message "File/Folder not found.",
HTTP 404) — what the spec calls `PathNotFound`. -/
def AppErr.isNotFoundClass : AppErr → Bool
  | .fileNotFound => true
  | .folderNotFound => true
  | _ => false

/-! ### Filesystem model

The working copy on disk is modelled as an association list from absolute,
normalized path strings to nodes.  Directories are explicit entries; a
well-formed state (which every witness uses) lists every ancestor directory
of every entry. -/

inductive FSNode
  | dir
  | file (content : String)
  deriving DecidableEq, Repr

abbrev FS := List (String × FSNode)

/-- First binding for a path, like a real filesystem lookup. -/
def fsLookup (fs : FS) (p : String) : Option FSNode :=
  match fs with
  | [] => none
  | (q, n) :: rest => if q = p then some n else fsLookup rest p

/-- Create or overwrite the node at `p`. -/
def fsSet (fs : FS) (p : String) (n : FSNode) : FS :=
  if (fsLookup fs p).isSome then
    fs.map (fun e => if e.1 = p then (p, n) else e)
  else fs ++ [(p, n)]

/-- Remove the binding at `p` (and only it). -/
def fsRemove (fs : FS) (p : String) : FS :=
  fs.filter (fun e => e.1 ≠ p)

/-- If `q` is a direct child of directory `dirPath`, its entry name. -/
def childName (dirPath q : String) : Option String :=
  let pre := dirPath ++ "/"
  if listStarts pre.data q.data then
    let rest := q.data.drop pre.data.length
    if rest ≠ [] && rest.contains '/' = false then some (String.mk rest) else none
  else none

/-- `os.listdir`: names of the direct children of `dirPath`. -/
def childNames (fs : FS) (dirPath : String) : List String :=
  fs.filterMap (fun e => childName dirPath e.1)

/-- All ancestors of an absolute normalized path, outermost first, ending
with the path itself (the directories `os.makedirs` creates). -/
def ancestorsOf (p : String) : List String :=
  let comps := (chSplit '/' p.data).filter (fun c => c ≠ [])
  (List.range comps.length).map
    (fun i => String.mk ('/' :: joinSlash (comps.take (i + 1))))

/-- `os.makedirs(path, exist_ok=True)`: create every missing ancestor
directory; a file in the way raises an untyped `OSError`
(`FileExistsError`/`NotADirectoryError`). -/
def pyMakedirs (fs : FS) (p : String) : Except AppErr FS :=
  (ancestorsOf p).foldlM
    (fun acc q =>
      match fsLookup acc q with
      | some .dir => .ok acc
      | some (.file _) => .error .osError
      | none => .ok (fsSet acc q .dir))
    fs

/-- `os.rename(old, new)`: move the node and, for directories, every
descendant; an existing directory at the destination raises an untyped
`OSError`. -/
def pyRename (fs : FS) (old new : String) : Except AppErr FS :=
  match fsLookup fs new with
  | some .dir => .error .osError
  | _ =>
    .ok ((fsRemove fs new).map
      (fun e =>
        if e.1 = old then (new, e.2)
        else if listStarts (old ++ "/").data e.1.data then
          (new ++ String.mk (e.1.data.drop old.data.length), e.2)
        else e))

/-! ### The sandboxed repository handle (`AsyncGit.__init__`)

`cwd` is the process working directory consumed by `os.path.abspath`.
`local_path` holds the already-`abspath`ed clone path the constructor stores;
`mkAsyncGit` performs that normalization.  The constructor also computes
`allowed_path = os.path.join(local_path, base_folder)` (not normalized);
it is exposed here as the function `allowed_path`. -/

structure AsyncGitH where
  cwd : String
  repo_url : String
  local_path : String
  base_folder : String
  main_branch : String
  deriving Repr

/-- `AsyncGit.__init__`: stores `os.path.abspath(local_path)`. -/
def mkAsyncGit (cwd repo_url local_path base_folder main_branch : String) : AsyncGitH :=
  { cwd, repo_url, local_path := pyAbspath cwd local_path, base_folder, main_branch }

/-- `self.allowed_path = os.path.join(self.local_path, self.base_folder)`. -/
def allowed_path (g : AsyncGitH) : String :=
  pyJoin2 g.local_path g.base_folder

/-- The `repo_root` computed inside `_ensure_within_repo`:
`os.path.abspath(os.path.join(self.local_path, self.base_folder))`. -/
def repoRoot (g : AsyncGitH) : String :=
  pyAbspath g.cwd (allowed_path g)

/-- The raw resolution done by `_abs_path` before validation:
`os.path.abspath(os.path.join(self.local_path, self.base_folder, rel))`. -/
def resolvedAbs (g : AsyncGitH) (rel : String) : String :=
  pyAbspath g.cwd (pyJoin2 (pyJoin2 g.local_path g.base_folder) rel)

/-- `AsyncGit._ensure_within_repo`: re-normalize, then reject when the result
does not extend `repo_root` as a *string* prefix (`str.startswith`), ends in
`".git"`, or contains `".git/"` (`str.find(".git/") != -1`). -/
def _ensure_within_repo (g : AsyncGitH) (abs0 : String) : Except AppErr Unit :=
  let root := repoRoot g
  let a := pyAbspath g.cwd abs0
  if listStarts root.data a.data = false then .error .pathAccessDenied
  else if listEnds ".git".data a.data then .error .pathAccessDenied
  else if containsSub ".git/".data a.data then .error .pathAccessDenied
  else .ok ()

/-- The value `_ensure_within_repo` actually subjects to its checks: the
resolution of `rel`, re-normalized. -/
def checkedAbs (g : AsyncGitH) (rel : String) : String :=
  pyAbspath g.cwd (resolvedAbs g rel)

/-- The specification's "references the version-control metadata directory":
some path segment of the normalized absolute path is exactly `.git`. -/
def hasGitSegment (a : String) : Bool :=
  (chSplit '/' a.data).contains ".git".data

/-- The specification's "normalizes to a location outside the sandbox root":
the normalized absolute path is neither the root itself nor inside the root
*directory*. -/
def outsideRootDir (root a : String) : Bool :=
  !(a = root || listStarts (root ++ "/").data a.data)

/-- `AsyncGit._abs_path`: resolve then validate, returning the absolute
path. -/
def _abs_path (g : AsyncGitH) (rel : String) : Except AppErr String :=
  let a := resolvedAbs g rel
  match _ensure_within_repo g a with
  | .error e => .error e
  | .ok _ => .ok a

/-- `AsyncGit._write_text`: re-validates its (absolute) argument through
`_abs_path`, then `open(path, "w")`; opening a directory raises an untyped
`IsADirectoryError`. -/
def _write_text (g : AsyncGitH) (fs : FS) (path content : String) : Except AppErr FS :=
  match _abs_path g path with
  | .error e => .error e
  | .ok p =>
    match fsLookup fs p with
    | some .dir => .error .osError
    | _ => .ok (fsSet fs p (.file content))

/-- `AsyncGit._read_text`: re-validates, then `open(path, "r").read()`. -/
def _read_text (g : AsyncGitH) (fs : FS) (path : String) : Except AppErr String :=
  match _abs_path g path with
  | .error e => .error e
  | .ok p =>
    match fsLookup fs p with
    | some (.file c) => .ok c
    | some .dir => .error .osError
    | none => .error .osError

/-- `AsyncGit.list_all`: validate, `InvalidPathError` when the path does not
exist, otherwise `os.listdir` (untyped `NotADirectoryError` on a file). -/
def list_all (g : AsyncGitH) (fs : FS) (rel : String) : Except AppErr (List String) :=
  match _abs_path g rel with
  | .error e => .error e
  | .ok full =>
    match fsLookup fs full with
    | none => .error .invalidPathError
    | some (.file _) => .error .osError
    | some .dir => .ok (childNames fs full)

/-!
`write_file`, `delete_file` and `manage_git_keep` are mutually recursive in
the source (each mutating operation re-applies the `.gitkeep` placeholder
invariant, which in turn writes or deletes `.gitkeep` files).  The embedding
uses a fuel parameter that drops by one at every cross-call; the recursion
depth of the source is at most three, so the public wrappers pass fuel `8`
and never exhaust it.
-/

mutual

/-- `AsyncGit.write_file`: validate, `os.makedirs(dirname(full))`,
`_write_text`, then re-apply the placeholder invariant to the relative
parent. -/
def write_file : Nat → AsyncGitH → FS → String → String → Except AppErr FS
  | 0, _, _, _, _ => .error .fuelOut
  | n + 1, g, fs, rel, content =>
    match _abs_path g rel with
    | .error e => .error e
    | .ok full =>
      match pyMakedirs fs (pyDirname full) with
      | .error e => .error e
      | .ok fs1 =>
        match _write_text g fs1 full content with
        | .error e => .error e
        | .ok fs2 => manage_git_keep n g fs2 (pyDirname rel)

/-- `AsyncGit.delete_file`: validate; a missing or non-file target raises
`FolderNotFound`; otherwise `os.remove` then the placeholder invariant on the
parent. -/
def delete_file : Nat → AsyncGitH → FS → String → Except AppErr FS
  | 0, _, _, _ => .error .fuelOut
  | n + 1, g, fs, rel =>
    match _abs_path g rel with
    | .error e => .error e
    | .ok full =>
      match fsLookup fs full with
      | some (.file _) => manage_git_keep n g (fsRemove fs full) (pyDirname rel)
      | _ => .error .folderNotFound

/-- `AsyncGit.manage_git_keep`: list the directory; write a `.gitkeep` into
an empty directory, delete the `.gitkeep` of a directory that has other
content, do nothing otherwise. -/
def manage_git_keep : Nat → AsyncGitH → FS → String → Except AppErr FS
  | 0, _, _, _ => .error .fuelOut
  | n + 1, g, fs, rel =>
    match list_all g fs rel with
    | .error e => .error e
    | .ok contents =>
      let gitKeepPath := pyJoin2 rel ".gitkeep"
      if contents.length = 0 then write_file n g fs gitKeepPath ""
      else if contents.length > 1 && contents.contains ".gitkeep" then
        delete_file n g fs gitKeepPath
      else .ok fs

end

/-- `AsyncGit.make_folder`: validate, `os.makedirs(full, exist_ok=True)`,
then the placeholder invariant on the new folder itself. -/
def make_folder (fuel : Nat) (g : AsyncGitH) (fs : FS) (rel : String) : Except AppErr FS :=
  match _abs_path g rel with
  | .error e => .error e
  | .ok full =>
    match pyMakedirs fs full with
    | .error e => .error e
    | .ok fs1 => manage_git_keep fuel g fs1 rel

/-- `AsyncGit.delete_folder`: validate; `FolderNotFound` when the target is
missing or not a directory; `PathAccessDenied` when it is the sandbox root
itself (compared after `removesuffix("/")`); then `os.rmdir`, which raises an
untyped `OSError` on a non-empty directory; finally the placeholder invariant
on the parent. -/
def delete_folder (fuel : Nat) (g : AsyncGitH) (fs : FS) (rel : String) : Except AppErr FS :=
  match _abs_path g rel with
  | .error e => .error e
  | .ok full =>
    match fsLookup fs full with
    | some .dir =>
      if pyRemovesuffix full "/" = pyRemovesuffix (allowed_path g) "/" then
        .error .pathAccessDenied
      else if childNames fs full ≠ [] then .error .osError
      else manage_git_keep fuel g (fsRemove fs full) (pyDirname rel)
    | _ => .error .folderNotFound

/-- `AsyncGit.read_file`: validate; `FolderNotFound` when the target is
missing or not a file; otherwise `_read_text`. -/
def read_file (g : AsyncGitH) (fs : FS) (rel : String) : Except AppErr String :=
  match _abs_path g rel with
  | .error e => .error e
  | .ok full =>
    match fsLookup fs full with
    | some (.file _) => _read_text g fs full
    | _ => .error .folderNotFound

/-- `AsyncGit.rename_path`: validate both paths; `InvalidPathError` when the
old path does not exist; `os.makedirs(dirname(new_full))`; `os.rename`; then
the placeholder invariant on both parents. -/
def rename_path (fuel : Nat) (g : AsyncGitH) (fs : FS) (oldRel newRel : String) :
    Except AppErr FS :=
  match _abs_path g oldRel with
  | .error e => .error e
  | .ok oldFull =>
    match _abs_path g newRel with
    | .error e => .error e
    | .ok newFull =>
      if (fsLookup fs oldFull).isNone then .error .invalidPathError
      else
        match pyMakedirs fs (pyDirname newFull) with
        | .error e => .error e
        | .ok fs1 =>
          match pyRename fs1 oldFull newFull with
          | .error e => .error e
          | .ok fs2 =>
            match manage_git_keep fuel g fs2 (pyDirname oldRel) with
            | .error e => .error e
            | .ok fs3 => manage_git_keep fuel g fs3 (pyDirname newRel)

/-- `AsyncGit.list_files_only`: like `list_all` but keeping entries for which
`os.path.isfile(os.path.join(full_path, entry))` holds. -/
def list_files_only (g : AsyncGitH) (fs : FS) (rel : String) : Except AppErr (List String) :=
  match _abs_path g rel with
  | .error e => .error e
  | .ok full =>
    match fsLookup fs full with
    | none => .error .invalidPathError
    | some (.file _) => .error .osError
    | some .dir =>
      .ok ((childNames fs full).filter
        (fun nm =>
          match fsLookup fs (full ++ "/" ++ nm) with
          | some (.file _) => true
          | _ => false))

/-- `AsyncGit.list_folders_only`: like `list_all` but keeping directory
entries. -/
def list_folders_only (g : AsyncGitH) (fs : FS) (rel : String) : Except AppErr (List String) :=
  match _abs_path g rel with
  | .error e => .error e
  | .ok full =>
    match fsLookup fs full with
    | none => .error .invalidPathError
    | some (.file _) => .error .osError
    | some .dir =>
      .ok ((childNames fs full).filter
        (fun nm =>
          match fsLookup fs (full ++ "/" ++ nm) with
          | some .dir => true
          | _ => false))

/-- `AsyncGit.does_path_exist`: validate, then `os.path.exists`. -/
def does_path_exist (g : AsyncGitH) (fs : FS) (rel : String) : Except AppErr Bool :=
  match _abs_path g rel with
  | .error e => .error e
  | .ok full => .ok (fsLookup fs full).isSome

/-- Tree nodes produced by `get_tree`: `{name, type}` for files and
`{name, type, children}` for folders. -/
inductive TreeNode
  | fileN (name : String)
  | folderN (name : String) (children : List TreeNode)

/-- `build_tree` inside module-level `get_tree`: scan the directory, skip
entries named `".git"`, recurse into directories.  A missing path raises
`FolderNotFound` (the caught `FileNotFoundError`); scanning a file raises an
untyped `NotADirectoryError`.  Fuel bounds the recursion depth. -/
def build_tree (fs : FS) : Nat → String → Except AppErr TreeNode
  | 0, _ => .error .fuelOut
  | n + 1, path =>
    match fsLookup fs path with
    | none => .error .folderNotFound
    | some (.file _) => .error .osError
    | some .dir =>
      match ((childNames fs path).filter (fun nm => nm ≠ ".git")).mapM
        (fun nm =>
          match fsLookup fs (path ++ "/" ++ nm) with
          | some .dir => build_tree fs n (path ++ "/" ++ nm)
          | _ => .ok (TreeNode.fileN nm)) with
      | .error e => .error e
      | .ok children => .ok (TreeNode.folderN (pyBasename path) children)

/-- `AsyncGit.get_tree`: validate, then walk with `build_tree` starting at
the resolved absolute path. -/
def get_tree (g : AsyncGitH) (fs : FS) (rel : String) : Except AppErr TreeNode :=
  match _abs_path g rel with
  | .error e => .error e
  | .ok full => build_tree fs (fs.length + 1) full

/-! ### A common dispatcher over the eleven public path operations -/

/-- One client-facing file/folder operation of `AsyncGit`, with its
arguments. -/
inductive FsOp
  | makeFolder (p : String)
  | deleteFolder (p : String)
  | deleteFile (p : String)
  | writeFile (p content : String)
  | readFile (p : String)
  | renamePath (old new : String)
  | listFilesOnly (p : String)
  | listFoldersOnly (p : String)
  | listAll (p : String)
  | doesPathExist (p : String)
  | getTree (p : String)
  deriving DecidableEq, Repr

/-- Return value of a dispatched operation. -/
inductive FsRet
  | unitR
  | strR (s : String)
  | strsR (l : List String)
  | boolR (b : Bool)
  | treeR (t : TreeNode)

/-- Run one operation against a handle and filesystem; mutating operations
return the new filesystem, reads return it unchanged. -/
def runOp (g : AsyncGitH) (fs : FS) : FsOp → Except AppErr (FS × FsRet)
  | .makeFolder p => (make_folder 8 g fs p).map (fun fs1 => (fs1, .unitR))
  | .deleteFolder p => (delete_folder 8 g fs p).map (fun fs1 => (fs1, .unitR))
  | .deleteFile p => (delete_file 8 g fs p).map (fun fs1 => (fs1, .unitR))
  | .writeFile p c => (write_file 8 g fs p c).map (fun fs1 => (fs1, .unitR))
  | .readFile p => (read_file g fs p).map (fun s => (fs, .strR s))
  | .renamePath old new => (rename_path 8 g fs old new).map (fun fs1 => (fs1, .unitR))
  | .listFilesOnly p => (list_files_only g fs p).map (fun l => (fs, .strsR l))
  | .listFoldersOnly p => (list_folders_only g fs p).map (fun l => (fs, .strsR l))
  | .listAll p => (list_all g fs p).map (fun l => (fs, .strsR l))
  | .doesPathExist p => (does_path_exist g fs p).map (fun b => (fs, .boolR b))
  | .getTree p => (get_tree g fs p).map (fun t => (fs, .treeR t))

/-! ### Git-command models (`commit_and_push`, `checkout`, `_rebase`)

The external `git` invocations are modelled by an oracle giving each
command's outcome: `.okRes` for success, `.cmdErr msg` for a
`GitCommandError` whose `str(e)` is `msg`. -/

inductive GitRes
  | okRes
  | cmdErr (msg : String)
  deriving DecidableEq, Repr

/-- The git commands a flow can invoke, recorded as a trace. -/
inductive GitInv
  | addAll
  | commitMsg (message : String)
  | pushInv
  | checkoutNewBranch (b : String)
  | pushUpstream (b : String)
  | checkoutBranch (b : String)
  | resetHard
  | cleanUntracked
  | fetchOrigin
  | rebaseOntoMain
  deriving DecidableEq, Repr

/-- Outcomes of `_load_repo`: the local path may be missing
(`InvalidPathError`) or the repository bare (`GitError`); neither is a
`GitCommandError`, so callers' `except GitCommandError` clauses do not catch
them. -/
structure LoadWorld where
  localPathExists : Bool
  bare : Bool
  deriving DecidableEq, Repr

/-- `AsyncGit._load_repo`. -/
def _load_repo (w : LoadWorld) : Except AppErr Unit :=
  if w.localPathExists = false then .error .invalidPathError
  else if w.bare then .error .gitError
  else .ok ()

/-- Command outcomes consumed by `commit_and_push`. -/
structure CommitWorld where
  load : LoadWorld
  addRes : GitRes
  commitRes : GitRes
  pushRes : GitRes
  deriving DecidableEq, Repr

/-- Result of a successful `commit_and_push`: either a commit was pushed or
the "nothing to commit" early return fired. -/
inductive CommitOutcome
  | pushed
  | noOp
  deriving DecidableEq, Repr

/-- `AsyncGit.commit_and_push(message)`: `_load_repo`; `git add --all`;
`git commit -m message` — a `GitCommandError` containing
`"nothing to commit"` returns early without pushing; otherwise `git push`.
Any `GitCommandError` reaching the outer handler becomes `GitCommitError`.
The returned trace lists the git commands actually invoked. -/
def commit_and_push (w : CommitWorld) (message : String) :
    Except AppErr (List GitInv × CommitOutcome) :=
  match _load_repo w.load with
  | .error e => .error e
  | .ok _ =>
    match w.addRes with
    | .cmdErr _ => .error .gitCommitError
    | .okRes =>
      match w.commitRes with
      | .cmdErr m =>
        if containsSub "nothing to commit".data m.data then
          .ok ([.addAll, .commitMsg message], .noOp)
        else .error .gitCommitError
      | .okRes =>
        match w.pushRes with
        | .cmdErr _ => .error .gitCommitError
        | .okRes => .ok ([.addAll, .commitMsg message, .pushInv], .pushed)

/-- Definition following the words of the specification sentence
"`commit_and_push(message)`: stage all changes, commit with the given
message, push.  If there is nothing to commit, succeed as a no-op without
pushing.  Any git failure (other than "nothing to commit") raises a commit
error."  Used as the reference behaviour for the refinement theorem. -/
def commit_and_push_spec (w : CommitWorld) (message : String) :
    Except AppErr (List GitInv × CommitOutcome) :=
  if w.addRes ≠ .okRes then .error .gitCommitError
  else
    match w.commitRes with
    | .cmdErr m =>
      if containsSub "nothing to commit".data m.data then
        .ok ([.addAll, .commitMsg message], .noOp)
      else .error .gitCommitError
    | .okRes =>
      if w.pushRes ≠ .okRes then .error .gitCommitError
      else .ok ([.addAll, .commitMsg message, .pushInv], .pushed)

/-- Command outcomes consumed by `_rebase`. -/
structure RebaseWorld where
  resetRes : GitRes
  cleanRes : GitRes
  fetchRes : GitRes
  rebaseRes : GitRes
  deriving DecidableEq, Repr

/-- `_rebase`'s `except GitCommandError` handler: a message containing
`"Could not read from remote repository"` becomes `GitConnectionError`, any
other `GitRebaseError`. -/
def classifyRebaseErr (m : String) : AppErr :=
  if containsSub "Could not read from remote repository".data m.data then
    .gitConnectionError
  else .gitRebaseError

/-- `AsyncGit._rebase`: `reset --hard origin/main`, `clean -xdf`, `fetch`,
`rebase origin/main`; the first failing command aborts with a classified
error. -/
def _rebase (w : RebaseWorld) : Except AppErr (List GitInv) :=
  match w.resetRes with
  | .cmdErr m => .error (classifyRebaseErr m)
  | .okRes =>
    match w.cleanRes with
    | .cmdErr m => .error (classifyRebaseErr m)
    | .okRes =>
      match w.fetchRes with
      | .cmdErr m => .error (classifyRebaseErr m)
      | .okRes =>
        match w.rebaseRes with
        | .cmdErr m => .error (classifyRebaseErr m)
        | .okRes => .ok [.resetHard, .cleanUntracked, .fetchOrigin, .rebaseOntoMain]

/-- Branch-related state of the handle and its repository: the handle's
`self.branch` and `main_branch`, the clone's local branches
(`self.repo.branches`), and the branches present on the remote.  The source
never consults `remoteBranches`; the field is part of the modelled world so
that the specification's "exists remotely" is expressible. -/
structure BranchState where
  branch : String
  mainBranch : String
  localBranches : List String
  remoteBranches : List String
  deriving DecidableEq, Repr

/-- Command outcomes consumed by `checkout`. -/
structure CheckoutWorld where
  load : LoadWorld
  checkoutRes : GitRes
  pushRes : GitRes
  rebaseW : RebaseWorld
  deriving DecidableEq, Repr

/-- `AsyncGit.checkout(branch)`: default the argument to the main branch;
return immediately when already on the requested branch; otherwise load the
repo and — when the branch is *not among the local branches*
(`branch not in self.repo.branches`) — create it with `checkout -b` and
`push -u origin branch`, else plain `checkout`; update `self.branch`; run
`_rebase`.  A `GitCommandError` from checkout or push becomes a generic
`GitError`; `_rebase`'s typed errors propagate unchanged (with `self.branch`
already updated). -/
def checkout (st : BranchState) (branchArg : Option String) (w : CheckoutWorld) :
    BranchState × Except AppErr (List GitInv) :=
  let branch := branchArg.getD st.mainBranch
  if branch = st.branch then (st, .ok [])
  else
    match _load_repo w.load with
    | .error e => (st, .error e)
    | .ok _ =>
      if st.localBranches.contains branch = false then
        match w.checkoutRes with
        | .cmdErr _ => (st, .error .gitError)
        | .okRes =>
          match w.pushRes with
          | .cmdErr _ => (st, .error .gitError)
          | .okRes =>
            let st1 := { st with branch := branch }
            match _rebase w.rebaseW with
            | .error e => (st1, .error e)
            | .ok rtr =>
              (st1, .ok ([.checkoutNewBranch branch, .pushUpstream branch] ++ rtr))
      else
        match w.checkoutRes with
        | .cmdErr _ => (st, .error .gitError)
        | .okRes =>
          let st1 := { st with branch := branch }
          match _rebase w.rebaseW with
          | .error e => (st1, .error e)
          | .ok rtr => (st1, .ok ([.checkoutBranch branch] ++ rtr))

/-- The behaviour the corrected claim ascribes to `checkout` under a
fault-free git world, keyed — as the code is — on the *local* branch list. -/
def checkout_amended_spec (st : BranchState) (branch : String) :
    BranchState × Except AppErr (List GitInv) :=
  if branch = st.branch then (st, .ok [])
  else if st.localBranches.contains branch = false then
    ({ st with branch := branch },
     .ok [.checkoutNewBranch branch, .pushUpstream branch,
          .resetHard, .cleanUntracked, .fetchOrigin, .rebaseOntoMain])
  else
    ({ st with branch := branch },
     .ok [.checkoutBranch branch,
          .resetHard, .cleanUntracked, .fetchOrigin, .rebaseOntoMain])

/-! ### Task model (`src/server/src/models/tasks.py`)

Timestamps are integers (an arbitrary fixed unit; the cleanup comparison uses
the same unit for its window).  The crucial point of `TaskModel` is that the
`created_at` and `updated_at` defaults are `datetime.now(timezone.utc)`
evaluated *once, when the class body runs at module import*; every
construction that omits the fields therefore receives that single value.
`classDefTime` stands for it below. -/

inductive TaskStatus
  | inProgress
  | completed
  | failed
  deriving DecidableEq, Repr

structure TaskModel where
  task_id : String
  user : String
  description : String
  status : TaskStatus
  result : Option String
  error : Option String
  status_code : Nat
  created_at : Int
  updated_at : Int
  deriving DecidableEq, Repr

/-- Constructing `TaskModel(task_id=…, user=…, description=…)` with every
other field left to its default: status `PENDING`, no result or error,
status code 200, and both timestamps equal to the class-definition-time
constant. -/
def TaskModel.mkDefault (classDefTime : Int) (task_id user description : String) :
    TaskModel :=
  { task_id, user, description, status := .inProgress, result := none,
    error := none, status_code := 200, created_at := classDefTime,
    updated_at := classDefTime }

/-- `TaskModel.update_status`: overwrite status, result, error and status
code, and stamp `updated_at` with `datetime.now(timezone.utc)` (`now`). -/
def TaskModel.update_status (t : TaskModel) (status : TaskStatus)
    (result error : Option String) (status_code : Nat) (now : Int) : TaskModel :=
  { t with status, result, error, status_code, updated_at := now }

/-! ### Task manager (`src/server/src/services/task_manager.py`)

`task_store` is a Python dict; it is modelled as a function from task id to
`Option TaskModel`. -/

abbrev TaskStore := String → Option TaskModel

def emptyStore : TaskStore := fun _ => none

def storeInsert (store : TaskStore) (id : String) (t : TaskModel) : TaskStore :=
  fun k => if k = id then some t else store k

/-- `create_task(user, description)`: mint an id (supplied here by the
caller, standing for `uuid.uuid4()`), store a default-constructed task,
return the id.  `datetime.now()` at call time is *not* consulted — the
defaults were evaluated once at class definition. -/
def create_task (classDefTime : Int) (store : TaskStore)
    (task_id user description : String) : TaskStore :=
  storeInsert store task_id (TaskModel.mkDefault classDefTime task_id user description)

/-- `create_task` viewed at an arbitrary wall-clock instant `callTime`: the
code has no access to it, so the result ignores it.  This wrapper makes the
claim "tasks created at different times share one `created_at`"
expressible. -/
def create_task_at (classDefTime : Int) (callTime : Int)
    (task_id user description : String) : TaskModel :=
  TaskModel.mkDefault classDefTime task_id user description

/-- `set_task_result`: update the stored task when present, silently do
nothing when the id is unknown. -/
def set_task_result (store : TaskStore) (task_id : String) (status : TaskStatus)
    (result error : Option String) (now : Int) : TaskStore :=
  match store task_id with
  | some t => storeInsert store task_id (t.update_status status result error 200 now)
  | none => store

/-- Outcomes of the four failure points inside `enqueue_task`'s `run()`
coroutine, in program order: repository lookup (`get_git_handler` /
`get_git_lock`), `clone_or_sync`, the caller's `action`, and
`commit_and_push`.  `some msg` is an exception whose `str(e)` is `msg`. -/
structure RunWorld where
  lookupErr : Option String
  cloneErr : Option String
  actionErr : Option String
  commitErr : Option String
  deriving DecidableEq, Repr

/-- The first exception `run()`'s `try` block raises, if any. -/
def firstErr (w : RunWorld) : Option String :=
  match w.lookupErr with
  | some m => some m
  | none =>
    match w.cloneErr with
    | some m => some m
    | none =>
      match w.actionErr with
      | some m => some m
      | none => w.commitErr

/-- The body of `enqueue_task`'s `run()`: on any exception anywhere in the
`try` block, `set_task_result(task_id, FAILED, error=str(e))`; on success,
`set_task_result(task_id, COMPLETED, result=message)`.  The function is
total: the `except Exception` handler means no exception escapes the
coroutine. -/
def run_task (w : RunWorld) (task_id message : String) (now : Int)
    (store : TaskStore) : TaskStore :=
  match firstErr w with
  | some m => set_task_result store task_id .failed none (some m) now
  | none => set_task_result store task_id .completed (some message) none now

/-- `enqueue_task`: `create_task` synchronously, then the `run()` coroutine
(modelled as running to completion at time `now`). -/
def enqueue_task (w : RunWorld) (classDefTime now : Int)
    (task_id user message : String) (store : TaskStore) : TaskStore :=
  run_task w task_id message now (create_task classDefTime store task_id user message)

/-! ### Cleanup sweep and task routes
(`lifespan_functions.task_manager_cleanup_loop`, `task_routes.py`) -/

/-- One pass of `task_manager_cleanup_loop`: delete every task whose
`now - updated_at` strictly exceeds the expiration window (the source builds
the list of expired ids and deletes each; deleting all of them equals
filtering). -/
def task_manager_cleanup (now window : Int) (store : TaskStore) : TaskStore :=
  fun id =>
    match store id with
    | some t => if now - t.updated_at > window then none else some t
    | none => none

/-- `get_task_status` route: unknown id raises `TaskNotFound`; a task owned
by another user raises `UnauthorizedError`; otherwise the task is
returned. -/
def get_task_status (store : TaskStore) (task_id user : String) :
    Except AppErr TaskModel :=
  match store task_id with
  | none => .error .taskNotFound
  | some t => if t.user ≠ user then .error .unauthorizedError else .ok t

/-! ### Per-repository locking (`enqueue_task` + `git_locks`)

`run()` executes `async with get_git_lock(repo_id): clone_or_sync(); action();
commit_and_push()`.  The cooperative scheduler interleaves coroutines only at
await points, and the `asyncio.Lock` admits one holder per repository.  The
transition system below models exactly that protocol: each task owns the
program `acquire; gitOp 0 (clone_or_sync); gitOp 1 (action); gitOp 2
(commit_and_push); release`, an `acquire` is enabled only when the repo's
lock is free, and the git operations require the task to hold its repo's
lock (phases `locked 0..3`). -/

abbrev TaskCid := String
abbrev RepoId := String

inductive Phase
  | ready
  | lockedAt (i : Nat)
  | doneP
  deriving DecidableEq, Repr

structure Sys where
  lockOf : RepoId → Option TaskCid
  pcOf : TaskCid → Phase

inductive Ev
  | acquire
  | gitOp (i : Nat)
  | release
  deriving DecidableEq, Repr

/-- One scheduler step: task `t` attempts event `e`; `none` when the event
is not enabled in `s`. -/
def stepFn (env : TaskCid → RepoId) (s : Sys) (t : TaskCid) (e : Ev) : Option Sys :=
  match e with
  | .acquire =>
    match s.pcOf t, s.lockOf (env t) with
    | .ready, none =>
      some { lockOf := fun r => if r = env t then some t else s.lockOf r,
             pcOf := fun u => if u = t then .lockedAt 0 else s.pcOf u }
    | _, _ => none
  | .gitOp i =>
    match s.pcOf t with
    | .lockedAt j =>
      if i = j ∧ i < 3 then
        some { s with pcOf := fun u => if u = t then .lockedAt (i + 1) else s.pcOf u }
      else none
    | _ => none
  | .release =>
    match s.pcOf t with
    | .lockedAt j =>
      if j = 3 then
        some { lockOf := fun r => if r = env t then none else s.lockOf r,
               pcOf := fun u => if u = t then .doneP else s.pcOf u }
      else none
    | _ => none

/-- Run a schedule (a list of attempted steps); `none` when some step was
not enabled. -/
def runSys (env : TaskCid → RepoId) : Sys → List (TaskCid × Ev) → Option Sys
  | s, [] => some s
  | s, (t, e) :: rest =>
    match stepFn env s t e with
    | some s1 => runSys env s1 rest
    | none => none

/-- All locks free, every task before its critical section. -/
def initSys : Sys :=
  { lockOf := fun _ => none, pcOf := fun _ => .ready }

/-- A schedule the cooperative scheduler can actually execute. -/
def ValidTrace (env : TaskCid → RepoId) (tr : List (TaskCid × Ev)) : Prop :=
  (runSys env initSys tr).isSome = true

/-- The mutual-exclusion invariant: a task inside its critical section holds
its repository's lock. -/
def InvL (env : TaskCid → RepoId) (s : Sys) : Prop :=
  ∀ t i, s.pcOf t = .lockedAt i → s.lockOf (env t) = some t

/-- Two tasks against one repository. -/
def envC2 : TaskCid → RepoId := fun _ => "r1"

/-- A schedule where task `A` completes its whole critical section before
task `B` enters its own. -/
def trC2 : List (TaskCid × Ev) :=
  [("A", .acquire), ("A", .gitOp 0), ("A", .gitOp 1), ("A", .gitOp 2),
   ("A", .release), ("B", .acquire), ("B", .gitOp 0)]

instance (env : TaskCid → RepoId) (tr : List (TaskCid × Ev)) :
    Decidable (ValidTrace env tr) := by
  unfold ValidTrace; infer_instance

/-! ### Periodic sync scheduler

`sync_repo_periodically` is imported from `task_manager` by both
`lifespan_functions.py` and `main.py` and spawned per repository, but its
definition is not among the provided sources. -/

/-- What one iteration of the loop observes: the outcome of `pull()` under
the repository's lock (`.error msg` when `pull` raised). -/
inductive IterOutcome
  | continueLoop (logged : Option String)
  deriving DecidableEq, Repr

/-- Modelled from the spec: the body of one iteration of
`sync_repo_periodically`, whose definition is missing from the sources (only
its importers `lifespan_functions.py` and `main.py` are present).  Per §4.4:
"sleep for the configured interval, then acquire the repository's lock and
run `pull()`; log and swallow failures (a failed periodic pull does not stop
the loop and does not propagate to any client)."  The return type has no
error alternative: every outcome continues the loop, a failure merely
logged. -/
def sync_repo_periodically_iter (pullResult : Except String Unit) : IterOutcome :=
  match pullResult with
  | .ok _ => .continueLoop none
  | .error m => .continueLoop (some m)

/-- Modelled from the spec: the perpetual loop run against a list of
successive `pull()` outcomes — one iteration per outcome, never
terminating early. -/
def sync_repo_periodically_run (outcomes : List (Except String Unit)) :
    List IterOutcome :=
  outcomes.map sync_repo_periodically_iter

/-- The background tasks `lifespan` spawns at startup
(`lifespan_functions.py` lines 107–112): one `sync_repo_periodically` per
registered repository, plus the config-reload, task-cleanup and env-reload
loops. -/
inductive SpawnedTask
  | syncLoop (repoId : String)
  | reloadRepoConfig
  | taskCleanup
  | reloadEnv
  deriving DecidableEq, Repr

def lifespan_spawned (registeredRepoIds : List String) : List SpawnedTask :=
  registeredRepoIds.map .syncLoop ++ [.reloadRepoConfig, .taskCleanup, .reloadEnv]

/-- The loops `reload_repo_config_periodically` spawns on a hot-reload: one
new `sync_repo_periodically` per repository id present in the fresh
configuration but not yet registered (line 79). -/
def reload_spawned (existingIds newIds : List String) : List SpawnedTask :=
  (newIds.filter (fun i => existingIds.contains i = false)).map .syncLoop

/-! ### Decidability of result comparison, and concrete fixtures -/

instance {ε α : Type} [DecidableEq ε] [DecidableEq α] : DecidableEq (Except ε α) :=
  fun x y =>
    match x, y with
    | .ok a, .ok b =>
      if h : a = b then isTrue (by rw [h])
      else isFalse (fun hc => h (by injection hc))
    | .error a, .error b =>
      if h : a = b then isTrue (by rw [h])
      else isFalse (fun hc => h (by injection hc))
    | .ok _, .error _ => isFalse (fun hc => by injection hc)
    | .error _, .ok _ => isFalse (fun hc => by injection hc)

/-- A handle as built by `lifespan`: clone at `/clone`, base folder `base`,
process working directory `/`. -/
def gHandleEx : AsyncGitH := mkAsyncGit "/" "http://example/r" "/clone" "base" "master"

/-- A minimal well-formed working copy: just the clone root and the sandbox
root. -/
def fsRootOnly : FS := [("/clone", .dir), ("/clone/base", .dir)]

/-- A working copy whose directory `d` holds only the `.gitkeep`
placeholder. -/
def fsKeepOnly : FS :=
  [("/clone", .dir), ("/clone/base", .dir), ("/clone/base/d", .dir),
   ("/clone/base/d/.gitkeep", .file "")]

/-- A branch state whose branch `feat` exists locally but not on the
remote. -/
def stC7 : BranchState :=
  { branch := "master", mainBranch := "master",
    localBranches := ["master", "feat"], remoteBranches := ["master"] }

/-- A fault-free git-command world for `checkout`. -/
def wAllOk : CheckoutWorld :=
  { load := ⟨true, false⟩, checkoutRes := .okRes, pushRes := .okRes,
    rebaseW := ⟨.okRes, .okRes, .okRes, .okRes⟩ }

/-- A completed task last updated at instant 0. -/
def oldDoneTask : TaskModel :=
  (TaskModel.mkDefault 0 "old" "alice" "v").update_status
    .completed (some "ok") none 200 0

/-- A store holding `oldDoneTask` plus a pending task updated at 95. -/
def c6Store : TaskStore :=
  storeInsert
    (storeInsert emptyStore "young" (TaskModel.mkDefault 95 "young" "bob" "w"))
    "old" oldDoneTask

/-! ## Theorems -/

/-! ### String lemmas feeding the sandbox-check analysis -/

theorem listStarts_refl (l : List Char) : listStarts l l = true := by
  induction l with
  | nil => rfl
  | cons c t ih => simp [listStarts, ih]

theorem listStarts_append (p : List Char) :
    ∀ (a b : List Char), listStarts p a = true → listStarts p (a ++ b) = true := by
  induction p with
  | nil => intro a b _; rfl
  | cons c ps ih =>
    intro a b h
    cases a with
    | nil => simp [listStarts] at h
    | cons x xs =>
      simp [listStarts] at h ⊢
      exact ⟨h.1, ih xs b h.2⟩

theorem containsSub_of_starts (p l : List Char) (h : listStarts p l = true) :
    containsSub p l = true := by
  cases l with
  | nil => exact h
  | cons c t => simp [containsSub, h]

theorem containsSub_append_left (p : List Char) :
    ∀ (x l : List Char), containsSub p l = true → containsSub p (x ++ l) = true := by
  intro x
  induction x with
  | nil => intro l h; exact h
  | cons c xs ih =>
    intro l h
    simp [containsSub, ih l h]

theorem listEnds_append (s pre l : List Char) (h : listEnds s l = true) :
    listEnds s (pre ++ l) = true := by
  unfold listEnds at h ⊢
  rw [List.reverse_append]
  exact listStarts_append _ _ _ h

theorem chSplit_ne_nil (sep : Char) (l : List Char) : chSplit sep l ≠ [] := by
  cases l with
  | nil => simp [chSplit]
  | cons c rest =>
    simp only [chSplit]
    split
    · simp
    · split <;> simp

theorem chSplit_decomp (sep : Char) :
    ∀ (l h : List Char) (t : List (List Char)), chSplit sep l = h :: t →
      (t = [] ∧ l = h) ∨ ∃ l2, l = h ++ sep :: l2 ∧ chSplit sep l2 = t := by
  intro l
  induction l with
  | nil =>
    intro h t he
    simp [chSplit] at he
    exact Or.inl ⟨by simp_all, by simp_all⟩
  | cons c rest ih =>
    intro h t he
    by_cases hc : c = sep
    · have he2 : ([] : List Char) :: chSplit sep rest = h :: t := by
        simpa [chSplit, hc] using he
      have hh : h = ([] : List Char) := by injection he2 with h1 _; exact h1.symm
      have ht : chSplit sep rest = t := by injection he2
      right
      exact ⟨rest, by simp [hh, hc], ht⟩
    · cases hrr : chSplit sep rest with
      | nil => exact absurd hrr (chSplit_ne_nil sep rest)
      | cons h2 t2 =>
        have he2 : (c :: h2) :: t2 = h :: t := by
          simpa [chSplit, hc, hrr] using he
        have hh : h = c :: h2 := by injection he2 with h1 _; exact h1.symm
        have ht : t = t2 := by injection he2 with _ h2'; exact h2'.symm
        rcases ih h2 t2 hrr with ⟨ht2, hrest⟩ | ⟨l2, hre, hsp⟩
        · left
          exact ⟨by rw [ht, ht2], by rw [hh, hrest]⟩
        · right
          exact ⟨l2, by rw [hh, hre]; rfl, by rw [ht]; exact hsp⟩

theorem mem_chSplit_slash (pat : List Char) (hpe : pat ≠ []) :
    ∀ (n : Nat) (l : List Char), l.length ≤ n → pat ∈ chSplit '/' l →
      listEnds pat l = true ∨ containsSub (pat ++ ['/']) l = true := by
  intro n
  induction n with
  | zero =>
    intro l hl hm
    have hz : l = [] := List.length_eq_zero.mp (Nat.le_zero.mp hl)
    subst hz
    simp [chSplit] at hm
    exact absurd hm hpe
  | succ n ih =>
    intro l hl hm
    cases hsp : chSplit '/' l with
    | nil => exact absurd hsp (chSplit_ne_nil '/' l)
    | cons h t =>
      rw [hsp] at hm
      rcases List.mem_cons.mp hm with hph | hpt
      · subst hph
        rcases chSplit_decomp '/' l pat t hsp with ⟨_, hl2⟩ | ⟨l2, hl2, _⟩
        · left
          rw [hl2]
          exact listStarts_refl _
        · right
          rw [hl2]
          have hform : pat ++ '/' :: l2 = (pat ++ ['/']) ++ l2 := by simp
          rw [hform]
          exact containsSub_of_starts _ _
            (listStarts_append _ _ _ (listStarts_refl (pat ++ ['/'])))
      · rcases chSplit_decomp '/' l h t hsp with ⟨ht, _⟩ | ⟨l2, hl2, hsp2⟩
        · rw [ht] at hpt
          simp at hpt
        · have hlen : l2.length ≤ n := by
            rw [hl2] at hl
            simp [List.length_append] at hl
            omega
          rcases ih l2 hlen (by rw [hsp2]; exact hpt) with he | hs
          · left
            rw [hl2]
            have hform : h ++ '/' :: l2 = (h ++ ['/']) ++ l2 := by simp
            rw [hform]
            exact listEnds_append _ _ _ he
          · right
            rw [hl2]
            have hform : h ++ '/' :: l2 = (h ++ ['/']) ++ l2 := by simp
            rw [hform]
            exact containsSub_append_left _ _ _ hs

/-- A `.git` path segment always trips `_ensure_within_repo`'s string
tests: the normalized path then either ends in `".git"` or contains
`".git/"`. -/
theorem gitSegment_trips (a : String) (h : hasGitSegment a = true) :
    listEnds ".git".data a.data = true ∨ containsSub ".git/".data a.data = true := by
  unfold hasGitSegment at h
  have hm : ".git".data ∈ chSplit '/' a.data := by
    simpa using h
  have hres := mem_chSplit_slash ".git".data (by decide) a.data.length a.data
    le_rfl hm
  have heq : ".git".data ++ ['/'] = ".git/".data := by decide
  rcases hres with h1 | h2
  · exact Or.inl h1
  · right
    rw [heq] at h2
    exact h2

/-- `_abs_path` rejects with `PathAccessDenied` whenever the checked value
fails the `startswith` test or carries a `.git` segment. -/
theorem absPath_denied (g : AsyncGitH) (p : String)
    (h : listStarts (repoRoot g).data (checkedAbs g p).data = false
         ∨ hasGitSegment (checkedAbs g p) = true) :
    _abs_path g p = .error .pathAccessDenied := by
  unfold _abs_path _ensure_within_repo
  unfold checkedAbs at h
  rcases h with h | h
  · simp [h]
  · rcases gitSegment_trips _ h with he | hsub
    · by_cases hs : listStarts (repoRoot g).data
          (pyAbspath g.cwd (resolvedAbs g p)).data = false
      · simp [hs]
      · simp [hs, he]
    · by_cases hs : listStarts (repoRoot g).data
          (pyAbspath g.cwd (resolvedAbs g p)).data = false
      · simp [hs]
      · by_cases he2 : listEnds ".git".data
            (pyAbspath g.cwd (resolvedAbs g p)).data = true
        · simp [hs, he2]
        · simp [hs, he2, hsub]

/-- A denied path makes `write_file` fail before touching the state, for
any positive fuel. -/
theorem write_file_denied (n : Nat) (g : AsyncGitH) (fs : FS) (rel c : String)
    (h : _abs_path g rel = .error .pathAccessDenied) :
    write_file (n + 1) g fs rel c = .error .pathAccessDenied := by
  unfold write_file
  simp [h]

/-- A denied path makes `delete_file` fail before touching the state, for
any positive fuel. -/
theorem delete_file_denied (n : Nat) (g : AsyncGitH) (fs : FS) (rel : String)
    (h : _abs_path g rel = .error .pathAccessDenied) :
    delete_file (n + 1) g fs rel = .error .pathAccessDenied := by
  unfold delete_file
  simp [h]

/-- C1 counterexample: with sandbox root `/clone/base`, the client path
`../base2/secret.txt` normalizes to `/clone/base2/secret.txt` — outside the
sandbox root directory, in the sibling `base2` whose name merely extends the
root string — yet `_ensure_within_repo`'s raw `startswith` accepts it and
`write_file` succeeds, creating the file outside the sandbox instead of
raising `PathAccessDenied`. -/
theorem c1_counterexample :
    outsideRootDir (repoRoot gHandleEx)
        (checkedAbs gHandleEx "../base2/secret.txt") = true
    ∧ (runOp gHandleEx fsRootOnly
        (.writeFile "../base2/secret.txt" "boom")).toOption.map
          (fun r => fsLookup r.1 "/clone/base2/secret.txt")
        = some (some (.file "boom")) := by
  exact ⟨by decide, by decide⟩

/-- C1 (amended): every one of the eleven client-facing operations raises
`PathAccessDenied` — mutating nothing, as the error is returned before any
state change — for every path whose normalized resolution fails to extend
the sandbox root as a *string* prefix, and for every path that references a
`.git` segment; for `rename_path` a denied path in either argument position
rejects the call.  (The original claim's stronger guarantee — that every
path normalizing outside the sandbox root *directory* is rejected — fails:
the check is `str.startswith`, so a sibling directory extending the root
string is accepted, witness `c1_counterexample`.) -/
theorem c1_sandbox_denial (g : AsyncGitH) (fs : FS) (p : String)
    (h : listStarts (repoRoot g).data (checkedAbs g p).data = false
         ∨ hasGitSegment (checkedAbs g p) = true) :
    runOp g fs (.makeFolder p) = .error .pathAccessDenied
    ∧ runOp g fs (.deleteFolder p) = .error .pathAccessDenied
    ∧ runOp g fs (.deleteFile p) = .error .pathAccessDenied
    ∧ (∀ c, runOp g fs (.writeFile p c) = .error .pathAccessDenied)
    ∧ runOp g fs (.readFile p) = .error .pathAccessDenied
    ∧ (∀ q, runOp g fs (.renamePath p q) = .error .pathAccessDenied)
    ∧ (∀ q fq, _abs_path g q = .ok fq →
        runOp g fs (.renamePath q p) = .error .pathAccessDenied)
    ∧ runOp g fs (.listFilesOnly p) = .error .pathAccessDenied
    ∧ runOp g fs (.listFoldersOnly p) = .error .pathAccessDenied
    ∧ runOp g fs (.listAll p) = .error .pathAccessDenied
    ∧ runOp g fs (.doesPathExist p) = .error .pathAccessDenied
    ∧ runOp g fs (.getTree p) = .error .pathAccessDenied := by
  have habs : _abs_path g p = .error .pathAccessDenied := absPath_denied g p h
  have hwf : ∀ c, write_file 8 g fs p c = .error .pathAccessDenied :=
    fun c => write_file_denied 7 g fs p c habs
  have hdf : delete_file 8 g fs p = .error .pathAccessDenied :=
    delete_file_denied 7 g fs p habs
  refine ⟨?_, ?_, ?_, ?_, ?_, ?_, ?_, ?_, ?_, ?_, ?_, ?_⟩
  · simp [runOp, make_folder, habs, Except.map]
  · simp [runOp, delete_folder, habs, Except.map]
  · simp [runOp, hdf, Except.map]
  · intro c
    simp [runOp, hwf c, Except.map]
  · simp [runOp, read_file, habs, Except.map]
  · intro q
    simp [runOp, rename_path, habs, Except.map]
  · intro q fq hq
    simp [runOp, rename_path, hq, habs, Except.map]
  · simp [runOp, list_files_only, habs, Except.map]
  · simp [runOp, list_folders_only, habs, Except.map]
  · simp [runOp, list_all, habs, Except.map]
  · simp [runOp, does_path_exist, habs, Except.map]
  · simp [runOp, get_tree, habs, Except.map]

/-- Witness for C1's amended statement: `../../etc/passwd` (normalizing
entirely outside the root string) and `.git/config` (a `.git` segment) are
both rejected with `PathAccessDenied`. -/
theorem c1_sandbox_denial_witness :
    runOp gHandleEx fsRootOnly (.makeFolder "../../etc/passwd")
        = .error .pathAccessDenied
    ∧ runOp gHandleEx fsRootOnly (.writeFile "../../etc/passwd" "x")
        = .error .pathAccessDenied
    ∧ runOp gHandleEx fsRootOnly (.getTree ".git/config")
        = .error .pathAccessDenied
    ∧ runOp gHandleEx fsRootOnly (.renamePath "ok.txt" ".git/hooks")
        = .error .pathAccessDenied :=
  ⟨(c1_sandbox_denial gHandleEx fsRootOnly "../../etc/passwd"
      (Or.inl (by decide))).1,
   (c1_sandbox_denial gHandleEx fsRootOnly "../../etc/passwd"
      (Or.inl (by decide))).2.2.2.1 "x",
   (c1_sandbox_denial gHandleEx fsRootOnly ".git/config"
      (Or.inr (by decide))).2.2.2.2.2.2.2.2.2.2.2,
   (c1_sandbox_denial gHandleEx fsRootOnly ".git/hooks"
      (Or.inr (by decide))).2.2.2.2.2.2.1 "ok.txt" "/clone/base/ok.txt"
      (by decide)⟩

/-- C10: every `TaskModel` built through `create_task` carries the single
class-definition-time timestamp in both `created_at` and `updated_at`,
independent of the wall clock at creation; two tasks created at different
times agree on both fields, `created_at` never records the creation moment,
and `updated_at` becomes a genuine timestamp only through `update_status`.
The stored task of `create_task` is exactly that default-constructed
model. -/
theorem c10_task_timestamps (classT t1 t2 : Int) (h : t1 ≠ t2)
    (id1 u1 d1 id2 u2 d2 : String) :
    (create_task_at classT t1 id1 u1 d1).created_at
        = (create_task_at classT t2 id2 u2 d2).created_at
    ∧ (create_task_at classT t1 id1 u1 d1).updated_at
        = (create_task_at classT t2 id2 u2 d2).updated_at
    ∧ (create_task_at classT t1 id1 u1 d1).created_at = classT
    ∧ (create_task_at classT t1 id1 u1 d1).updated_at = classT
    ∧ (∀ (store : TaskStore) (id u d : String),
        create_task classT store id u d id = some (create_task_at classT t1 id u d))
    ∧ (∀ (t : TaskModel) (s : TaskStatus) (r e : Option String) (now : Int),
        (t.update_status s r e 200 now).updated_at = now) := by
  refine ⟨rfl, rfl, rfl, rfl, ?_, fun _ _ _ _ _ => rfl⟩
  intro store id u d
  simp [create_task, storeInsert, create_task_at]

/-- Witness for C10 at concrete inputs: tasks created at instants 0 and 99
share timestamps (both equal to the class-definition instant 7), and
`update_status` at instant 42 stamps 42. -/
theorem c10_task_timestamps_witness :
    (create_task_at 7 0 "a" "alice" "da").created_at
        = (create_task_at 7 99 "b" "bob" "db").created_at
    ∧ (create_task_at 7 0 "a" "alice" "da").created_at = 7
    ∧ ((TaskModel.mkDefault 7 "a" "alice" "da").update_status
        .completed none none 200 42).updated_at = 42 :=
  ⟨(c10_task_timestamps 7 0 99 (by decide) "a" "alice" "da" "b" "bob" "db").1,
   (c10_task_timestamps 7 0 99 (by decide) "a" "alice" "da" "b" "bob" "db").2.2.1,
   (c10_task_timestamps 7 0 99 (by decide) "a" "alice" "da" "b" "bob" "db").2.2.2.2.2
     (TaskModel.mkDefault 7 "a" "alice" "da") .completed none none 42⟩

/-- C6: the cleanup sweep removes exactly the tasks whose age since last
update strictly exceeds the window — with no condition on their status — and
a subsequent `get_task_status` poll for a removed id raises `TaskNotFound`;
tasks within the window survive unchanged. -/
theorem c6_cleanup_expiry (store : TaskStore) (now window : Int)
    (id : String) (t : TaskModel)
    (hid : store id = some t)
    (hexp : now - t.updated_at > window) :
    task_manager_cleanup now window store id = none
    ∧ get_task_status (task_manager_cleanup now window store) id t.user
        = .error .taskNotFound
    ∧ (∀ (id2 : String) (t2 : TaskModel), store id2 = some t2 →
        ¬ (now - t2.updated_at > window) →
        task_manager_cleanup now window store id2 = some t2) := by
  have hrm : task_manager_cleanup now window store id = none := by
    unfold task_manager_cleanup
    simp [hid, hexp]
  refine ⟨hrm, ?_, ?_⟩
  · unfold get_task_status
    rw [hrm]
  · intro id2 t2 hid2 hlive
    unfold task_manager_cleanup
    simp [hid2, hlive]

/-- Witness for C6: a store with a `completed` task last updated at 0 and a
pending one updated at 95; at time 100 with window 60 the sweep removes the
first (polling it then yields `TaskNotFound`) and keeps the second. -/
theorem c6_cleanup_expiry_witness :
    task_manager_cleanup 100 60 c6Store "old" = none
    ∧ get_task_status (task_manager_cleanup 100 60 c6Store) "old" "alice"
        = .error .taskNotFound
    ∧ task_manager_cleanup 100 60 c6Store "young"
        = some (TaskModel.mkDefault 95 "young" "bob" "w") :=
  ⟨(c6_cleanup_expiry c6Store 100 60 "old" oldDoneTask (by decide) (by decide)).1,
   (c6_cleanup_expiry c6Store 100 60 "old" oldDoneTask (by decide) (by decide)).2.1,
   (c6_cleanup_expiry c6Store 100 60 "old" oldDoneTask (by decide) (by decide)).2.2
     "young" (TaskModel.mkDefault 95 "young" "bob" "w") (by decide) (by decide)⟩

/-- C4: whichever of the four failure points inside the background coroutine
raises first (repository lookup, `clone_or_sync`, the action, or
`commit_and_push`), the stored task ends `failed` with that exception's
message as its error; with no failure it ends `completed`; it never remains
pending.  `run_task` is a total function: the coroutine's `except Exception`
handler means no exception escapes. -/
theorem c4_task_failure_capture (w : RunWorld) (classT now : Int)
    (task_id user message : String) (store : TaskStore) :
    ((enqueue_task w classT now task_id user message store) task_id).map
        TaskModel.status ≠ some .inProgress
    ∧ (∀ m, firstErr w = some m →
        ((enqueue_task w classT now task_id user message store) task_id).map
            (fun t => (t.status, t.error, t.result))
          = some (.failed, some m, none))
    ∧ (firstErr w = none →
        ((enqueue_task w classT now task_id user message store) task_id).map
            (fun t => (t.status, t.result, t.error))
          = some (.completed, some message, none)) := by
  unfold enqueue_task run_task create_task
  refine ⟨?_, ?_, ?_⟩
  · cases hfe : firstErr w <;>
      simp [set_task_result, storeInsert, TaskModel.update_status, TaskModel.mkDefault]
  · intro m hm
    rw [hm]
    simp [set_task_result, storeInsert, TaskModel.update_status, TaskModel.mkDefault]
  · intro hm
    rw [hm]
    simp [set_task_result, storeInsert, TaskModel.update_status, TaskModel.mkDefault]

/-- Witness for C4: an action raising `"boom"` leaves the task `failed`
with error `"boom"`; the all-clear world leaves it `completed`. -/
theorem c4_task_failure_capture_witness :
    ((enqueue_task ⟨none, none, some "boom", none⟩ 0 9 "tid" "alice" "msg"
        emptyStore) "tid").map (fun t => (t.status, t.error, t.result))
      = some (.failed, some "boom", none)
    ∧ ((enqueue_task ⟨none, none, none, none⟩ 0 9 "tid" "alice" "msg"
        emptyStore) "tid").map (fun t => (t.status, t.result, t.error))
      = some (.completed, some "msg", none) :=
  ⟨(c4_task_failure_capture ⟨none, none, some "boom", none⟩ 0 9 "tid" "alice"
      "msg" emptyStore).2.1 "boom" (by decide),
   (c4_task_failure_capture ⟨none, none, none, none⟩ 0 9 "tid" "alice"
      "msg" emptyStore).2.2 (by decide)⟩

/-- C5: provided `_load_repo` succeeds, `commit_and_push` behaves exactly as
the specification sentence describes: stage everything, commit with the
given message, push; a commit failure whose message contains
"nothing to commit" is a successful no-op that never pushes; any other
`GitCommandError` from stage, commit or push raises `GitCommitError`. -/
theorem c5_commit_and_push_refines (w : CommitWorld) (message : String)
    (h1 : w.load.localPathExists = true) (h2 : w.load.bare = false) :
    commit_and_push w message = commit_and_push_spec w message := by
  unfold commit_and_push commit_and_push_spec _load_repo
  rw [h1, h2]
  cases w.addRes with
  | cmdErr m => simp
  | okRes =>
    cases w.commitRes with
    | cmdErr m => simp
    | okRes => cases w.pushRes with
      | cmdErr m => simp
      | okRes => simp

/-- Witness for C5 in the "nothing to commit" world: the result is a
successful no-op whose trace stages and commits but never pushes, matching
the spec-side definition. -/
theorem c5_commit_and_push_refines_witness :
    commit_and_push
        ⟨⟨true, false⟩, .okRes,
         .cmdErr "nothing to commit, working tree clean", .okRes⟩ "m"
      = commit_and_push_spec
        ⟨⟨true, false⟩, .okRes,
         .cmdErr "nothing to commit, working tree clean", .okRes⟩ "m"
    ∧ commit_and_push
        ⟨⟨true, false⟩, .okRes,
         .cmdErr "nothing to commit, working tree clean", .okRes⟩ "m"
      = .ok ([.addAll, .commitMsg "m"], .noOp) :=
  ⟨c5_commit_and_push_refines _ "m" rfl rfl, by decide⟩

example : commit_and_push
      ⟨⟨true, false⟩, .okRes, .cmdErr "other failure", .okRes⟩ "m"
    = .error .gitCommitError := by decide

/-- C9: `delete_folder` deletes with `os.rmdir`; once the path validates,
exists as a directory, and is not the sandbox root, any remaining entry —
such as the `.gitkeep` that `manage_git_keep` puts into every otherwise
empty directory — makes it raise the untyped `OSError` of a non-empty
`rmdir`, so a placeholder-holding folder cannot be deleted. -/
theorem c9_delete_folder_rmdir_nonempty (g : AsyncGitH) (fs : FS)
    (rel full : String)
    (habs : _abs_path g rel = .ok full)
    (hdir : fsLookup fs full = some .dir)
    (hroot : pyRemovesuffix full "/" ≠ pyRemovesuffix (allowed_path g) "/")
    (hne : childNames fs full ≠ []) :
    delete_folder 8 g fs rel = .error .osError := by
  unfold delete_folder
  simp [habs, hdir, hroot, hne]

/-- Witness for C9: a sandboxed directory containing only `.gitkeep` cannot
be deleted — `delete_folder` raises the untyped `OSError`. -/
theorem c9_delete_folder_rmdir_nonempty_witness :
    delete_folder 8 gHandleEx fsKeepOnly "d" = .error .osError :=
  c9_delete_folder_rmdir_nonempty gHandleEx fsKeepOnly "d" "/clone/base/d"
    (by decide) (by decide) (by decide) (by decide)

/-- C8 counterexample: renaming the non-existent `missing.txt` raises
`InvalidPathError` — message "Invalid path.", HTTP 400 — which is *not* in
the not-found family (`FileNotFound`/`FolderNotFound`, HTTP 404) that the
claim's "PathNotFound" names; the same module uses `FolderNotFound` for
missing paths elsewhere, so the raised class is observably not a not-found
signal. -/
theorem c8_counterexample :
    rename_path 8 gHandleEx fsRootOnly "missing.txt" "sub/new.txt"
        = .error .invalidPathError
    ∧ AppErr.invalidPathError.isNotFoundClass = false
    ∧ AppErr.invalidPathError.statusCode ≠ 404 := by
  refine ⟨by decide, by decide, by decide⟩

/-- C8 (amended): when the old path of `rename_path` does not exist (and
both paths pass sandbox validation — a sandbox-violating argument raises
`PathAccessDenied` first), the call fails with `InvalidPathError` (HTTP 400
"Invalid path."), not with a 404 not-found error, before any filesystem
mutation is attempted (no directory creation, no rename: the error is
returned with the state untouched); `InvalidPathError` is a class distinct
from `PathAccessDenied` (HTTP 403), so the two remain separate outward
signals. -/
theorem c8_rename_missing_invalid_path (g : AsyncGitH) (fs : FS)
    (oldRel newRel oldFull newFull : String)
    (hold : _abs_path g oldRel = .ok oldFull)
    (hnew : _abs_path g newRel = .ok newFull)
    (hmiss : fsLookup fs oldFull = none) :
    rename_path 8 g fs oldRel newRel = .error .invalidPathError
    ∧ AppErr.invalidPathError ≠ AppErr.pathAccessDenied
    ∧ AppErr.invalidPathError.statusCode = 400
    ∧ AppErr.pathAccessDenied.statusCode = 403 := by
  refine ⟨?_, by decide, rfl, rfl⟩
  unfold rename_path
  simp [hold, hnew, hmiss]

/-- Witness for C8's amended statement at the counterexample input. -/
theorem c8_rename_missing_invalid_path_witness :
    rename_path 8 gHandleEx fsRootOnly "missing.txt" "sub/new.txt"
      = .error .invalidPathError :=
  (c8_rename_missing_invalid_path gHandleEx fsRootOnly "missing.txt"
    "sub/new.txt" "/clone/base/missing.txt" "/clone/base/sub/new.txt"
    (by decide) (by decide) (by decide)).1

/-- C7 counterexample: branch `feat` is absent from the remote, yet —
because the code tests `branch not in self.repo.branches`, the *local*
branch list — `checkout` takes the plain-checkout path and never creates or
pushes the branch upstream, contradicting the claim's "if the branch does
not exist remotely, it is created locally and pushed upstream with
tracking". -/
theorem c7_counterexample :
    stC7.remoteBranches.contains "feat" = false
    ∧ checkout stC7 (some "feat") wAllOk
        = ({ stC7 with branch := "feat" },
           .ok [.checkoutBranch "feat", .resetHard, .cleanUntracked,
                .fetchOrigin, .rebaseOntoMain])
    ∧ ((checkout stC7 (some "feat") wAllOk).2.toOption.getD []).contains
        (.pushUpstream "feat") = false :=
  ⟨by decide, by decide, by decide⟩

/-- C7 (amended): `checkout(branch)` is a no-op — no git invocations, state
unchanged — when the branch is already checked out; otherwise (in a
fault-free git world) the branch is created with tracking push exactly when
it is missing from the *local* branch list (not the remote one), else
checked out normally; in both non-no-op cases the resync protocol
(reset/clean/fetch/rebase) follows and the handle's branch field becomes the
requested branch — as captured by `checkout_amended_spec`. -/
theorem c7_checkout_local_branch_test (st : BranchState) (b : String)
    (w : CheckoutWorld)
    (h1 : w.load.localPathExists = true) (h2 : w.load.bare = false)
    (h3 : w.checkoutRes = .okRes) (h4 : w.pushRes = .okRes)
    (h5 : w.rebaseW.resetRes = .okRes) (h6 : w.rebaseW.cleanRes = .okRes)
    (h7 : w.rebaseW.fetchRes = .okRes) (h8 : w.rebaseW.rebaseRes = .okRes) :
    checkout st (some b) w = checkout_amended_spec st b := by
  unfold checkout checkout_amended_spec _load_repo _rebase
  rw [h1, h2, h3, h4, h5, h6, h7, h8]
  by_cases hb : b = st.branch
  · simp [hb]
  · by_cases hc : st.localBranches.contains b = false
    · simp [hb, hc]
    · simp [hb, hc]

/-- Witness for C7's amended statement at the counterexample input. -/
theorem c7_checkout_local_branch_test_witness :
    checkout stC7 (some "feat") wAllOk = checkout_amended_spec stC7 "feat" :=
  c7_checkout_local_branch_test stC7 "feat" wAllOk rfl rfl rfl rfl rfl rfl rfl rfl

end GitOpr

namespace GitOpr

/-! ### Lemmas about the lock transition system -/

theorem runSys_append (env : TaskCid → RepoId) (u v : List (TaskCid × Ev)) :
    ∀ s : Sys, runSys env s (u ++ v)
      = match runSys env s u with
        | some m => runSys env m v
        | none => none := by
  induction u with
  | nil => intro s; rfl
  | cons x u ih =>
    intro s
    obtain ⟨t, e⟩ := x
    show runSys env s ((t, e) :: (u ++ v)) = _
    cases hst : stepFn env s t e with
    | some s1 => simp [runSys, hst, ih s1]
    | none => simp [runSys, hst]

theorem stepFn_gitOp_elim (env : TaskCid → RepoId) {s s1 : Sys} {t : TaskCid}
    {i : Nat} (h : stepFn env s t (.gitOp i) = some s1) :
    s.pcOf t = .lockedAt i ∧ i < 3 ∧ s1.pcOf t = .lockedAt (i + 1)
    ∧ s1.lockOf = s.lockOf ∧ (∀ u, u ≠ t → s1.pcOf u = s.pcOf u) := by
  cases hpc : s.pcOf t with
  | ready => simp [stepFn, hpc] at h
  | doneP => simp [stepFn, hpc] at h
  | lockedAt j =>
    simp only [stepFn, hpc] at h
    split at h
    · rename_i hc
      obtain ⟨hij, hlt⟩ := hc
      injection h with hs1
      subst hij
      refine ⟨rfl, hlt, ?_, ?_, ?_⟩
      · rw [← hs1]; simp
      · rw [← hs1]
      · intro u hu
        rw [← hs1]
        simp [hu]
    · cases h

theorem stepFn_pc_other (env : TaskCid → RepoId) {s s1 : Sys} {t A : TaskCid}
    {e : Ev} (hne : A ≠ t) (h : stepFn env s t e = some s1) :
    s1.pcOf A = s.pcOf A := by
  cases e with
  | acquire =>
    cases hpc : s.pcOf t <;> cases hlk : s.lockOf (env t) <;>
      simp [stepFn, hpc, hlk] at h
    rw [← h]
    simp [hne]
  | gitOp i =>
    cases hpc : s.pcOf t <;> simp [stepFn, hpc] at h
    obtain ⟨_, hs1⟩ := h
    rw [← hs1]
    simp [hne]
  | release =>
    cases hpc : s.pcOf t <;> simp [stepFn, hpc] at h
    obtain ⟨_, hs1⟩ := h
    rw [← hs1]
    simp [hne]

theorem stepFn_done_pres (env : TaskCid → RepoId) {s s1 : Sys} {t A : TaskCid}
    {e : Ev} (hA : s.pcOf A = .doneP) (h : stepFn env s t e = some s1) :
    s1.pcOf A = .doneP := by
  by_cases hAt : A = t
  · subst hAt
    cases e with
    | acquire =>
      cases hlk : s.lockOf (env A) <;> simp [stepFn, hA, hlk] at h
    | gitOp i => simp [stepFn, hA] at h
    | release => simp [stepFn, hA] at h
  · rw [stepFn_pc_other env hAt h, hA]

theorem runSys_done_pres (env : TaskCid → RepoId) (A : TaskCid) :
    ∀ (tr : List (TaskCid × Ev)) (s s1 : Sys), runSys env s tr = some s1 →
      s.pcOf A = .doneP → s1.pcOf A = .doneP := by
  intro tr
  induction tr with
  | nil => intro s s1 h hA; cases h; exact hA
  | cons x rest ih =>
    intro s s1 h hA
    obtain ⟨t, e⟩ := x
    cases hst : stepFn env s t e with
    | none => simp [runSys, hst] at h
    | some s2 =>
      simp [runSys, hst] at h
      exact ih s2 s1 h (stepFn_done_pres env hA hst)

theorem stepFn_self_locked (env : TaskCid → RepoId) {s s1 : Sys} {A : TaskCid}
    {e : Ev} {i : Nat} (hA : s.pcOf A = .lockedAt i)
    (h : stepFn env s A e = some s1) :
    s1.pcOf A = .lockedAt (i + 1) ∨ s1.pcOf A = .doneP := by
  cases e with
  | acquire =>
    cases hlk : s.lockOf (env A) <;> simp [stepFn, hA, hlk] at h
  | gitOp k =>
    obtain ⟨hpc, _, hafter, _, _⟩ := stepFn_gitOp_elim env h
    rw [hpc] at hA
    injection hA with hik
    left
    rw [hafter, hik]
  | release =>
    simp [stepFn, hA] at h
    obtain ⟨_, hs1⟩ := h
    right
    rw [← hs1]
    simp

theorem stepFn_inv (env : TaskCid → RepoId) {s s1 : Sys} {t : TaskCid} {e : Ev}
    (hstep : stepFn env s t e = some s1) (hI : InvL env s) : InvL env s1 := by
  cases e with
  | acquire =>
    cases hpc : s.pcOf t with
    | ready =>
      cases hlk : s.lockOf (env t) with
      | none =>
        simp [stepFn, hpc, hlk] at hstep
        intro u i hu
        rw [← hstep] at hu
        by_cases hut : u = t
        · subst hut
          rw [← hstep]
          simp
        · simp [hut] at hu
          have hlock := hI u i hu
          rw [← hstep]
          by_cases hru : env u = env t
          · rw [hru] at hlock
            rw [hlk] at hlock
            cases hlock
          · simp [hru]
            exact hlock
      | some holder => simp [stepFn, hpc, hlk] at hstep
    | lockedAt j =>
      cases hlk : s.lockOf (env t) <;> simp [stepFn, hpc, hlk] at hstep
    | doneP =>
      cases hlk : s.lockOf (env t) <;> simp [stepFn, hpc, hlk] at hstep
  | gitOp i =>
    obtain ⟨hpc, _, hafter, hlock, hother⟩ := stepFn_gitOp_elim env hstep
    intro u k hu
    by_cases hut : u = t
    · subst hut
      rw [hlock]
      exact hI u _ hpc
    · rw [hother u hut] at hu
      rw [hlock]
      exact hI u k hu
  | release =>
    cases hpc : s.pcOf t with
    | ready => simp [stepFn, hpc] at hstep
    | doneP => simp [stepFn, hpc] at hstep
    | lockedAt j =>
      simp [stepFn, hpc] at hstep
      obtain ⟨hj3, hs1⟩ := hstep
      intro u k hu
      rw [← hs1] at hu
      by_cases hut : u = t
      · subst hut
        simp at hu
      · simp [hut] at hu
        have hlock := hI u k hu
        rw [← hs1]
        by_cases hru : env u = env t
        · have hlockt := hI t j hpc
          rw [hru] at hlock
          rw [hlockt] at hlock
          injection hlock with hut2
          exact absurd hut2.symm hut
        · simp [hru]
          exact hlock

theorem runSys_inv (env : TaskCid → RepoId) :
    ∀ (tr : List (TaskCid × Ev)) (s s1 : Sys), runSys env s tr = some s1 →
      InvL env s → InvL env s1 := by
  intro tr
  induction tr with
  | nil => intro s s1 h hI; cases h; exact hI
  | cons x rest ih =>
    intro s s1 h hI
    obtain ⟨t, e⟩ := x
    cases hst : stepFn env s t e with
    | none => simp [runSys, hst] at h
    | some s2 =>
      simp [runSys, hst] at h
      exact ih s2 s1 h (stepFn_inv env hst hI)

theorem locked_mid (env : TaskCid → RepoId) (A : TaskCid) :
    ∀ (u v : List (TaskCid × Ev)) (s sEnd : Sys),
      runSys env s (u ++ v) = some sEnd →
      (∃ i, s.pcOf A = .lockedAt i) →
      (∃ k, sEnd.pcOf A = .lockedAt k) →
      ∃ sm j, runSys env s u = some sm ∧ sm.pcOf A = .lockedAt j := by
  intro u
  induction u with
  | nil =>
    intro v s sEnd _ hstart _
    obtain ⟨i, hi⟩ := hstart
    exact ⟨s, i, rfl, hi⟩
  | cons x u ih =>
    intro v s sEnd hrun hstart hend
    obtain ⟨t, e⟩ := x
    obtain ⟨i, hi⟩ := hstart
    cases hst : stepFn env s t e with
    | none => simp [runSys, hst] at hrun
    | some s2 =>
      simp only [List.cons_append, runSys, hst] at hrun
      have hs2locked : ∃ i2, s2.pcOf A = .lockedAt i2 := by
        by_cases htA : t = A
        · subst htA
          rcases stepFn_self_locked env hi hst with hl | hd
          · exact ⟨i + 1, hl⟩
          · exfalso
            obtain ⟨k, hk⟩ := hend
            have := runSys_done_pres env t (u ++ v) s2 sEnd hrun hd
            rw [this] at hk
            cases hk
        · exact ⟨i, by rw [stepFn_pc_other env (fun hc => htA hc.symm) hst]; exact hi⟩
      obtain ⟨sm, j, hru, hj⟩ := ih v s2 sEnd hrun hs2locked hend
      exact ⟨sm, j, by simp [runSys, hst, hru], hj⟩

/-- C2: for every repository, the three git operations (`clone_or_sync`,
the action, `commit_and_push`) of two distinct tasks never interleave in any
schedule the lock admits — once task `B` performs a git operation after one
of task `A`'s, `A` performs no further git operation — because each task
holds the per-repository lock for the whole critical section; and a task's
step being enabled depends only on its own program counter and its own
repository's lock, so tasks of different repositories never block each
other. -/
theorem c2_lock_serialization (env : TaskCid → RepoId) :
    (∀ (tr l1 l2 l3 : List (TaskCid × Ev)) (A B : TaskCid) (a b c : Nat),
        ValidTrace env tr → A ≠ B → env A = env B →
        tr = l1 ++ (A, Ev.gitOp a) :: l2 ++ (B, Ev.gitOp b) :: l3 →
        (A, Ev.gitOp c) ∉ l3)
    ∧ (∀ (s s2 : Sys) (t : TaskCid) (e : Ev),
        s.pcOf t = s2.pcOf t → s.lockOf (env t) = s2.lockOf (env t) →
        (stepFn env s t e).isSome = (stepFn env s2 t e).isSome) := by
  constructor
  · intro tr l1 l2 l3 A B a b c hval hAB henv hdec hmem
    obtain ⟨m1, m2, hl3⟩ := List.append_of_mem hmem
    obtain ⟨sEnd, hrun⟩ := Option.isSome_iff_exists.mp hval
    rw [hdec, hl3] at hrun
    simp only [List.cons_append, List.append_assoc] at hrun
    replace hrun :=
      (runSys_append env l1
        ((A, Ev.gitOp a) :: (l2 ++ ((B, Ev.gitOp b) :: (m1 ++ ((A, Ev.gitOp c) :: m2)))))
        initSys).symm.trans hrun
    cases hs1 : runSys env initSys l1 with
    | none => rw [hs1] at hrun; cases hrun
    | some s1 =>
      rw [hs1] at hrun
      simp only [runSys] at hrun
      cases hstA : stepFn env s1 A (.gitOp a) with
      | none => rw [hstA] at hrun; cases hrun
      | some s2 =>
        rw [hstA] at hrun
        have hre : l2 ++ ((B, Ev.gitOp b) :: (m1 ++ ((A, Ev.gitOp c) :: m2)))
            = (l2 ++ ((B, Ev.gitOp b) :: m1)) ++ ((A, Ev.gitOp c) :: m2) := by
          simp
        rw [hre] at hrun
        replace hrun :=
          (runSys_append env (l2 ++ ((B, Ev.gitOp b) :: m1))
            ((A, Ev.gitOp c) :: m2) s2).symm.trans hrun
        cases hs5 : runSys env s2 (l2 ++ ((B, Ev.gitOp b) :: m1)) with
        | none => rw [hs5] at hrun; cases hrun
        | some s5 =>
          rw [hs5] at hrun
          simp only [runSys] at hrun
          cases hstC : stepFn env s5 A (.gitOp c) with
          | none => rw [hstC] at hrun; cases hrun
          | some s6 =>
            obtain ⟨hpcA1, _, hpcA2, _, _⟩ := stepFn_gitOp_elim env hstA
            obtain ⟨hpcA5, _, _, _, _⟩ := stepFn_gitOp_elim env hstC
            obtain ⟨s3, j, hs3, hj⟩ := locked_mid env A l2
              ((B, Ev.gitOp b) :: m1) s2 s5 hs5 ⟨a + 1, hpcA2⟩ ⟨c, hpcA5⟩
            have hmidB : runSys env s3 ((B, Ev.gitOp b) :: m1) = some s5 := by
              have hsp :=
                (runSys_append env l2 ((B, Ev.gitOp b) :: m1) s2).symm.trans hs5
              rw [hs3] at hsp
              exact hsp
            simp only [runSys] at hmidB
            cases hstB : stepFn env s3 B (.gitOp b) with
            | none => rw [hstB] at hmidB; cases hmidB
            | some s4 =>
              obtain ⟨hpcB3, _, _, _, _⟩ := stepFn_gitOp_elim env hstB
              have hIinit : InvL env initSys := by
                intro t i h
                cases h
              have hI1 : InvL env s1 := runSys_inv env l1 initSys s1 hs1 hIinit
              have hI2 : InvL env s2 := stepFn_inv env hstA hI1
              have hI3 : InvL env s3 := runSys_inv env l2 s2 s3 hs3 hI2
              have hlA : s3.lockOf (env A) = some A := hI3 A j hj
              have hlB : s3.lockOf (env B) = some B := hI3 B b hpcB3
              rw [henv] at hlA
              rw [hlA] at hlB
              injection hlB with hABeq
              exact hAB hABeq
  · intro s s2 t e h1 h2
    cases e with
    | acquire =>
      cases hpc : s2.pcOf t <;> cases hlk : s2.lockOf (env t) <;>
        rw [hpc] at h1 <;> rw [hlk] at h2 <;>
        simp [stepFn, h1, h2, hpc, hlk]
    | gitOp i =>
      cases hpc : s2.pcOf t with
      | ready => rw [hpc] at h1; simp [stepFn, h1, hpc]
      | doneP => rw [hpc] at h1; simp [stepFn, h1, hpc]
      | lockedAt j =>
        rw [hpc] at h1
        simp only [stepFn, h1, hpc]
        by_cases hc : i = j ∧ i < 3
        · obtain ⟨hij, hlt⟩ := hc
          subst hij
          simp [hlt]
        · simp [hc]
    | release =>
      cases hpc : s2.pcOf t with
      | ready => rw [hpc] at h1; simp [stepFn, h1, hpc]
      | doneP => rw [hpc] at h1; simp [stepFn, h1, hpc]
      | lockedAt j =>
        rw [hpc] at h1
        simp only [stepFn, h1, hpc]
        by_cases hc : j = 3
        · simp [hc]
        · simp [hc]

/-- Witness for C2 at a concrete schedule: `A` finishes its critical
section, then `B` starts; with the split after `B`'s first git operation
there is nothing of `A` left, and the theorem applies with every hypothesis
discharged. -/
theorem c2_lock_serialization_witness :
    ("A", Ev.gitOp 2) ∉ ([] : List (TaskCid × Ev)) :=
  (c2_lock_serialization envC2).1 trC2
    [("A", .acquire)]
    [("A", .gitOp 1), ("A", .gitOp 2), ("A", .release), ("B", .acquire)]
    [] "A" "B" 0 0 2 (by decide) (by decide) rfl (by decide)

end GitOpr

namespace GitOpr

/-- C3: one perpetual `sync_repo_periodically` loop exists per registered
repository — `lifespan` spawns one per registered id at startup and the
configuration hot-reload spawns one for each newly appearing id — and the
loop (modelled from the spec, its definition being absent from the provided
sources) performs one iteration per `pull()` outcome without ever
terminating early: a failed pull is logged (`continueLoop (some msg)`) and
the loop continues; the iteration's return type has no failure alternative,
so no pull error propagates to any client. -/
theorem c3_periodic_sync (repoIds existing newIds : List String) (r : String)
    (h1 : r ∈ repoIds) (h2 : r ∈ newIds) (h3 : existing.contains r = false)
    (outcomes : List (Except String Unit)) (m : String) :
    SpawnedTask.syncLoop r ∈ lifespan_spawned repoIds
    ∧ SpawnedTask.syncLoop r ∈ reload_spawned existing newIds
    ∧ (sync_repo_periodically_run outcomes).length = outcomes.length
    ∧ sync_repo_periodically_iter (.error m) = .continueLoop (some m)
    ∧ sync_repo_periodically_iter (.ok ()) = .continueLoop none := by
  refine ⟨?_, ?_, ?_, rfl, rfl⟩
  · unfold lifespan_spawned
    exact List.mem_append_left _ (List.mem_map_of_mem _ h1)
  · unfold reload_spawned
    refine List.mem_map_of_mem _ (List.mem_filter.mpr ⟨h2, ?_⟩)
    have hnm : r ∉ existing := fun hmem => by
      simp [List.contains_iff_exists_mem_beq] at h3
      exact h3 hmem
    simp [hnm]
  · simp [sync_repo_periodically_run]

/-- Witness for C3: repository `r1`, with a pull sequence whose middle
iteration fails; the loop still completes all three iterations and logs the
failure. -/
theorem c3_periodic_sync_witness :
    SpawnedTask.syncLoop "r1" ∈ lifespan_spawned ["r1", "r2"]
    ∧ SpawnedTask.syncLoop "r1" ∈ reload_spawned ["r2"] ["r1", "r2"]
    ∧ (sync_repo_periodically_run
        [.ok (), .error "remote down", .ok ()]).length = 3
    ∧ sync_repo_periodically_iter (.error "remote down")
        = .continueLoop (some "remote down") :=
  ⟨(c3_periodic_sync ["r1", "r2"] ["r2"] ["r1", "r2"] "r1" (by decide)
      (by decide) (by decide) [.ok (), .error "remote down", .ok ()]
      "remote down").1,
   (c3_periodic_sync ["r1", "r2"] ["r2"] ["r1", "r2"] "r1" (by decide)
      (by decide) (by decide) [.ok (), .error "remote down", .ok ()]
      "remote down").2.1,
   (c3_periodic_sync ["r1", "r2"] ["r2"] ["r1", "r2"] "r1" (by decide)
      (by decide) (by decide) [.ok (), .error "remote down", .ok ()]
      "remote down").2.2.1,
   (c3_periodic_sync ["r1", "r2"] ["r2"] ["r1", "r2"] "r1" (by decide)
      (by decide) (by decide) [.ok (), .error "remote down", .ok ()]
      "remote down").2.2.2.1⟩

end GitOpr
